import Mathlib

set_option maxHeartbeats 1000000
set_option maxRecDepth 4000

/-!
Shallow embedding of the goBreaker circuit-breaker library.

Time is modelled as `Int` nanoseconds (the reading of the Go wall clock
`time.Now().UnixNano()`); every operation that calls `time.Now()` in the
source takes the corresponding reading as an explicit `now : Int`
parameter.  Counters are `Nat` (they are only incremented and zeroed).
The window ring is a `List Bucket` indexed with `List.getD`, mirroring the
Go slice (indices are always in bounds in the source; the default value is
the Go zero value of `bucket`).
-/

namespace GoBreaker

/-- Model of the Go `bucket` struct: three outcome counters and the unix
nano timestamp at which the slot was last (re)initialized. -/
structure Bucket where
  failure : Nat
  success : Nat
  timeout : Nat
  timeStamp : Int
deriving DecidableEq, Repr

/-- The Go zero value `new(bucket)`. -/
instance : Inhabited Bucket := ⟨⟨0, 0, 0, 0⟩⟩

/-- Model of the Go `window` struct (the rolling-window Container). -/
structure Window where
  oldest : Nat
  latest : Nat
  buckets : List Bucket
  bucketTime : Int
  bucketNums : Nat
  expireTime : Int
  inWindow : Nat
  conseErr : Nat
deriving DecidableEq, Repr

instance : Inhabited Window := ⟨⟨0, 0, [], 0, 0, 0, 0, 0⟩⟩

namespace Window

/-- Ring access `w.buckets[i]`; Go indexing is always in bounds, the
default is the zero bucket. -/
def getB (w : Window) (i : Nat) : Bucket := w.buckets.getD i default

/-- `window.Reset`: `oldest = latest = 0`, `inWindow = 1`, `conseErr = 0`
and bucket 0 is zeroed with a fresh stamp.  The other buckets keep their
contents, exactly as in the source. -/
def Reset (w : Window) (now : Int) : Window :=
  { w with oldest := 0, latest := 0, inWindow := 1, conseErr := 0,
           buckets := w.buckets.set 0 { failure := 0, success := 0, timeout := 0, timeStamp := now } }

/-- `window.latestBucket`: if the latest bucket has outlived `bucketTime`,
advance `latest` (wrapping), either covering the oldest slot when the ring
is full or growing `inWindow`, and re-initialize the new latest bucket.
Returns the updated window and the index of the writable bucket. -/
def latestBucket (w : Window) (now : Int) : Window × Nat :=
  let lb := w.getB w.latest
  if lb.timeStamp + w.bucketTime ≤ now then
    let latest1 := if w.bucketNums ≤ w.latest + 1 then 0 else w.latest + 1
    if w.inWindow = w.bucketNums then
      let oldest1 := if w.bucketNums ≤ w.oldest + 1 then 0 else w.oldest + 1
      ({ w with latest := latest1, oldest := oldest1,
                buckets := w.buckets.set latest1
                  { failure := 0, success := 0, timeout := 0, timeStamp := now } }, latest1)
    else
      ({ w with latest := latest1, inWindow := w.inWindow + 1,
                buckets := w.buckets.set latest1
                  { failure := 0, success := 0, timeout := 0, timeStamp := now } }, latest1)
  else (w, w.latest)

/-- `window.Fail`: locate the writable bucket, bump `conseErr`, increment
the failure counter of that bucket. -/
def Fail (w : Window) (now : Int) : Window :=
  let p := w.latestBucket now
  let w1 := { p.1 with conseErr := p.1.conseErr + 1 }
  let b := w1.getB p.2
  { w1 with buckets := w1.buckets.set p.2 { b with failure := b.failure + 1 } }

/-- `window.Succeed`: locate the writable bucket, zero `conseErr`,
increment the success counter of that bucket. -/
def Succeed (w : Window) (now : Int) : Window :=
  let p := w.latestBucket now
  let w1 := { p.1 with conseErr := 0 }
  let b := w1.getB p.2
  { w1 with buckets := w1.buckets.set p.2 { b with success := b.success + 1 } }

/-- `window.Timeout`: locate the writable bucket, bump `conseErr`,
increment the timeout counter of that bucket. -/
def Timeout (w : Window) (now : Int) : Window :=
  let p := w.latestBucket now
  let w1 := { p.1 with conseErr := p.1.conseErr + 1 }
  let b := w1.getB p.2
  { w1 with buckets := w1.buckets.set p.2 { b with timeout := b.timeout + 1 } }

/-- The loop body of `window.expire`, fuelled: the Go loop runs while
`inWindow > 0` and the oldest bucket has passed `expireTime`, advancing
`oldest` (wrapping with an equality test, as in the source) and
decrementing `inWindow`.  `inWindow` strictly decreases on every
iteration, so `inWindow` itself is enough fuel. -/
def expireAux (now : Int) : Nat → Window → Window
  | 0, w => w
  | fuel + 1, w =>
    if 0 < w.inWindow then
      if (w.getB w.oldest).timeStamp + w.expireTime ≤ now then
        expireAux now fuel
          { w with oldest := if w.oldest + 1 = w.bucketNums then 0 else w.oldest + 1,
                   inWindow := w.inWindow - 1 }
      else w
    else w

/-- `window.expire`: drop expired buckets from the oldest end. -/
def expire (w : Window) (now : Int) : Window := expireAux now w.inWindow w

/-- The summation loop of `window.Counts`: starting at `idx`, add up
`remain` buckets, advancing the index with the wrapping test of the
source. -/
def countsAux (w : Window) : Nat → Nat → Nat × Nat × Nat
  | 0, _ => (0, 0, 0)
  | remain + 1, idx =>
    let b := w.getB idx
    let idx1 := if w.bucketNums ≤ idx + 1 then 0 else idx + 1
    let r := countsAux w remain idx1
    (r.1 + b.success, r.2.1 + b.failure, r.2.2 + b.timeout)

/-- `window.Counts`: first expire old buckets (this mutation persists in
the window), then sum the live buckets.  Returns the mutated window
together with `(successes, failures, timeouts)`. -/
def Counts (w : Window) (now : Int) : Window × (Nat × Nat × Nat) :=
  let w1 := w.expire now
  (w1, countsAux w1 w1.inWindow w1.oldest)

/-- The value returned by `window.Counts`. -/
def CountsV (w : Window) (now : Int) : Nat × Nat × Nat := (w.Counts now).2

/-- `window.Successes`. -/
def Successes (w : Window) (now : Int) : Nat := (w.CountsV now).1

/-- `window.Failures`. -/
def Failures (w : Window) (now : Int) : Nat := (w.CountsV now).2.1

/-- `window.Timeouts`. -/
def Timeouts (w : Window) (now : Int) : Nat := (w.CountsV now).2.2

/-- `window.ConsecutiveErrors`. -/
def ConsecutiveErrors (w : Window) : Nat := w.conseErr

/-- `window.Samples`: successes + failures + timeouts. -/
def Samples (w : Window) (now : Int) : Nat :=
  let c := w.CountsV now
  c.1 + c.2.1 + c.2.2

/-- `window.ErrorRate`, with Go float64 division modelled exactly on ℚ. -/
def ErrorRate (w : Window) (now : Int) : Rat :=
  let c := w.CountsV now
  if c.1 + c.2.1 + c.2.2 = 0 then 0
  else ((c.2.1 + c.2.2 : Nat) : Rat) / ((c.1 + c.2.1 + c.2.2 : Nat) : Rat)

end Window

/-- The single configuration error the source can produce
(`BucketNums` below 100 at window construction). -/
inductive ConfigError where
  | bucketNumsTooSmall
deriving DecidableEq, Repr

/-- `NewWindowWithOptions`: reject `bucketNums < 100`; otherwise build the
ring of zero buckets, set `expireTime = bucketTime * bucketNums` and
`Reset` the window. -/
def NewWindowWithOptions (bucketTime : Int) (bucketNums : Int) (now : Int) :
    Except ConfigError Window :=
  if bucketNums < 100 then .error .bucketNumsTooSmall
  else
    let w : Window :=
      { oldest := 0, latest := 0,
        buckets := List.replicate bucketNums.toNat default,
        bucketTime := bucketTime, bucketNums := bucketNums.toNat,
        expireTime := bucketTime * bucketNums, inWindow := 0, conseErr := 0 }
    .ok (w.Reset now)

/-- Model of the Go `State` enum (OPEN = 0, HALFOPEN = 1, CLOSED = 2). -/
inductive State where
  | OPEN
  | HALFOPEN
  | CLOSED
deriving DecidableEq, Repr

/-- A trip predicate.  In the source `TripFunc` receives the breaker as a
`Container` interface value; per the spec contract it is a pure function
of the Container view, so it is modelled as a predicate of the window
value and the wall-clock reading at which its metric calls happen. -/
def TripFunc : Type := Window → Int → Bool

/-- Model of the Go `Options` struct.  `ShouldTrip` is `none` for a nil
function value; `StateChangeHandler` records only whether a handler is
configured (non-nil); `now` is the injected clock, represented by the
reading it would currently produce (`none` for a nil field). -/
structure Options where
  BucketTime : Int
  BucketNums : Int
  BreakerRate : Rat
  BreakerMinQPS : Int
  BreakerMinSamples : Int
  CoolingTimeout : Int
  DetectTimeout : Int
  HalfOpenSuccess : Int
  ShouldTrip : Option TripFunc
  StateChangeHandler : Bool
  now : Option Int

/-- Model of the Go `Breaker` struct.  The field `now` mirrors the stored
clock function `b.now` (represented by its reading); note that, exactly
as in the source, no operation below ever reads it. -/
structure Breaker where
  container : Window
  state : State
  openTime : Int
  lastRetryTime : Int
  halfopenSuccess : Int
  options : Options
  now : Int

namespace Breaker

/-- Notifications delivered to the state-change handler during one
operation, as `(oldState, newState)` pairs; empty when no handler is
configured. -/
def Events : Type := List (State × State)

/-- `Breaker.Succeed`: in OPEN do nothing; in HALFOPEN bump the
consecutive-success counter and close (notify, reset the Container) when
it reaches `HalfOpenSuccess`; in CLOSED record into the Container. -/
def Succeed (b : Breaker) (now : Int) : Breaker × List (State × State) :=
  match b.state with
  | .OPEN => (b, [])
  | .HALFOPEN =>
    let b1 := { b with halfopenSuccess := b.halfopenSuccess + 1 }
    if b1.halfopenSuccess = b1.options.HalfOpenSuccess then
      let evs := if b1.options.StateChangeHandler
        then [(State.HALFOPEN, State.CLOSED)] else []
      ({ b1 with container := b1.container.Reset now, state := .CLOSED }, evs)
    else (b1, [])
  | .CLOSED => ({ b with container := b.container.Succeed now }, [])

/-- `Breaker.error`: record the outcome into the Container first (in every
state), then: OPEN does nothing further; HALFOPEN notifies and reopens;
CLOSED evaluates the trip predicate when it is non-nil and trips to OPEN
when it answers true. -/
def error (b : Breaker) (isTimeout : Bool) (trip : Option TripFunc) (now : Int) :
    Breaker × List (State × State) :=
  let b0 := { b with container :=
    if isTimeout then b.container.Timeout now else b.container.Fail now }
  match b0.state with
  | .OPEN => (b0, [])
  | .HALFOPEN =>
    let evs := if b0.options.StateChangeHandler
      then [(State.HALFOPEN, State.OPEN)] else []
    ({ b0 with openTime := now, state := .OPEN }, evs)
  | .CLOSED =>
    match trip with
    | none => (b0, [])
    | some f =>
      if f b0.container now then
        let evs := if b0.options.StateChangeHandler
          then [(State.CLOSED, State.OPEN)] else []
        ({ b0 with openTime := now, state := .OPEN }, evs)
      else (b0, [])

/-- `Breaker.Fail`. -/
def Fail (b : Breaker) (now : Int) : Breaker × List (State × State) :=
  b.error false b.options.ShouldTrip now

/-- `Breaker.FailWithTrip`. -/
def FailWithTrip (b : Breaker) (trip : Option TripFunc) (now : Int) :
    Breaker × List (State × State) :=
  b.error false trip now

/-- `Breaker.Timeout`. -/
def Timeout (b : Breaker) (now : Int) : Breaker × List (State × State) :=
  b.error true b.options.ShouldTrip now

/-- `Breaker.TimeoutWithTrip`. -/
def TimeoutWithTrip (b : Breaker) (trip : Option TripFunc) (now : Int) :
    Breaker × List (State × State) :=
  b.error true trip now

/-- `Breaker.isAllowed`: OPEN denies while `openTime + CoolingTimeout`
is still in the future (`time.Time.After` is a strict comparison),
otherwise moves to HALFOPEN with `halfopenSuccess = 0` and
`lastRetryTime = now` and allows; HALFOPEN spaces probes by
`DetectTimeout`; CLOSED always allows. -/
def isAllowed (b : Breaker) (now : Int) : Breaker × Bool :=
  match b.state with
  | .OPEN =>
    if now < b.openTime + b.options.CoolingTimeout then (b, false)
    else ({ b with state := .HALFOPEN, halfopenSuccess := 0, lastRetryTime := now }, true)
  | .HALFOPEN =>
    if now < b.lastRetryTime + b.options.DetectTimeout then (b, false)
    else ({ b with lastRetryTime := now }, true)
  | .CLOSED => (b, true)

/-- `Breaker.IsAllowed` simply calls `isAllowed`. -/
def IsAllowed (b : Breaker) (now : Int) : Breaker × Bool := b.isAllowed now

/-- `Breaker.State`. -/
def State (b : Breaker) : GoBreaker.State := b.state

/-- `Breaker.Reset`: reset the Container and return to CLOSED. -/
def Reset (b : Breaker) (now : Int) : Breaker :=
  { b with container := b.container.Reset now, state := .CLOSED }

end Breaker

/-- `ThresholdTripFunc`. -/
def ThresholdTripFunc (threshold : Int) : TripFunc := fun w now =>
  decide (threshold ≤ (w.Failures now : Int) + (w.Timeouts now : Int))

/-- `ConsecutiveTripFunc`. -/
def ConsecutiveTripFunc (threshold : Int) : TripFunc := fun w _ =>
  decide (threshold ≤ (w.ConsecutiveErrors : Int))

/-- `RateTripFunc`. -/
def RateTripFunc (rate : Rat) (minSamples : Int) : TripFunc := fun w now =>
  decide (minSamples ≤ (w.Samples now : Int)) && decide (rate ≤ w.ErrorRate now)

/-- 5 seconds in nanoseconds. -/
def DEFAULT_COOLING_TIMEOUT : Int := 5000000000

/-- 200 milliseconds in nanoseconds. -/
def DEFAULT_DETECT_TIMEOUT : Int := 200000000

/-- Default consecutive successes needed to close from HALFOPEN. -/
def DEFAULT_HALFOPEN_SUCCESSES : Int := 2

/-- 100 milliseconds in nanoseconds. -/
def DEFAULT_BUCKET_TIME : Int := 100000000

/-- Default number of buckets. -/
def DEFAULT_BUCKET_NUMS : Int := 100

/-- Modelled from the spec: the constant `DEFAULT_BREAKER_RATE` is
referenced by `NewBreaker` but its definition is not among the provided
sources; section 4.3 of the spec gives 0.5. -/
def DEFAULT_BREAKER_RATE : Rat := 1 / 2

/-- Modelled from the spec: the constant `DEFAULT_BREAKER_MINSAMPLES` is
referenced by `NewBreaker` but its definition is not among the provided
sources and the spec fixes no number; any positive value fits the spec
text, 200 is used here.  No claim depends on the value. -/
def DEFAULT_BREAKER_MINSAMPLES : Int := 200

/-- `NewBreaker`: replace nil/non-positive options by defaults, build the
window (which may reject the bucket count) and assemble a CLOSED breaker.
The stored clock defaults to the system clock, whose current reading is
`sysNow`.  As in the source, `BreakerMinQPS` is not copied into the
frozen options (it is left at its zero value). -/
def NewBreaker (options : Options) (sysNow : Int) : Except ConfigError Breaker :=
  let nowV := options.now.getD sysNow
  let bucketTime := if options.BucketTime ≤ 0 then DEFAULT_BUCKET_TIME else options.BucketTime
  let bucketNums := if options.BucketNums ≤ 0 then DEFAULT_BUCKET_NUMS else options.BucketNums
  let cooling := if options.CoolingTimeout ≤ 0 then DEFAULT_COOLING_TIMEOUT else options.CoolingTimeout
  let detect := if options.DetectTimeout ≤ 0 then DEFAULT_DETECT_TIMEOUT else options.DetectTimeout
  let halfOpen := if options.HalfOpenSuccess ≤ 0 then DEFAULT_HALFOPEN_SUCCESSES else options.HalfOpenSuccess
  let rate := if options.BreakerRate ≤ 0 then DEFAULT_BREAKER_RATE else options.BreakerRate
  let minSamples := if options.BreakerMinSamples ≤ 0 then DEFAULT_BREAKER_MINSAMPLES else options.BreakerMinSamples
  let shouldTrip := options.ShouldTrip.getD (RateTripFunc rate minSamples)
  match NewWindowWithOptions bucketTime bucketNums sysNow with
  | .error e => .error e
  | .ok w =>
    .ok { container := w
          state := .CLOSED
          openTime := 0
          lastRetryTime := 0
          halfopenSuccess := 0
          options :=
            { BucketTime := bucketTime
              BucketNums := bucketNums
              BreakerRate := rate
              BreakerMinQPS := 0
              BreakerMinSamples := minSamples
              CoolingTimeout := cooling
              DetectTimeout := detect
              HalfOpenSuccess := halfOpen
              ShouldTrip := some shouldTrip
              StateChangeHandler := options.StateChangeHandler
              now := some nowV }
          now := nowV }

/-- The configured bucket duration of a successfully built breaker. -/
def okBucketTime (r : Except ConfigError Breaker) : Option Int :=
  r.toOption.map fun b => b.container.bucketTime

/-- One window operation of the Container surface, tagged with the wall
clock reading at which it runs. -/
inductive WOp where
  | succeed (t : Int)
  | fail (t : Int)
  | timeout (t : Int)
  | counts (t : Int)
  | reset (t : Int)
deriving DecidableEq, Repr

/-- The wall-clock reading of an operation. -/
def WOp.time : WOp → Int
  | .succeed t => t
  | .fail t => t
  | .timeout t => t
  | .counts t => t
  | .reset t => t

/-- Whether an operation is a `Reset`. -/
def WOp.isReset : WOp → Bool
  | .reset _ => true
  | _ => false

/-- Apply one operation to a window; `counts` keeps the window mutated by
its internal `expire`. -/
def wstep (w : Window) : WOp → Window
  | .succeed t => w.Succeed t
  | .fail t => w.Fail t
  | .timeout t => w.Timeout t
  | .counts t => (w.Counts t).1
  | .reset t => w.Reset t

/-- Run a sequence of window operations. -/
def runW (w : Window) (ops : List WOp) : Window := ops.foldl wstep w

/-- Modelled from the spec (section 8, Windowing): the sum of all three
counters over exactly those buckets whose `createdAt + expireTime > t`.
This is the specification-side aggregate that claim C8 compares against
the result computed by `window.Samples`. -/
def specLiveSum (w : Window) (t : Int) : Nat :=
  (w.buckets.map fun b =>
    if t < b.timeStamp + w.expireTime then b.success + b.failure + b.timeout else 0).sum

/-- A concrete window: 100 buckets of 1 ns each, built at time 0. -/
def w100 : Window := (NewWindowWithOptions 1 100 0).toOption.getD default

/-- A trip predicate that never trips. -/
def trivialTrip : TripFunc := fun _ _ => false

/-- Concrete options used by the sample breakers below. -/
def sampleOptions : Options :=
  { BucketTime := 1, BucketNums := 100, BreakerRate := 0, BreakerMinQPS := 0,
    BreakerMinSamples := 1, CoolingTimeout := 5, DetectTimeout := 2,
    HalfOpenSuccess := 2, ShouldTrip := some trivialTrip,
    StateChangeHandler := false, now := none }

/-- A concrete breaker sitting in OPEN. -/
def openBreaker : Breaker :=
  { container := w100, state := .OPEN, openTime := 0, lastRetryTime := 0,
    halfopenSuccess := 0, options := sampleOptions, now := 0 }

/-- A concrete breaker sitting in CLOSED. -/
def closedBreaker : Breaker := { openBreaker with state := .CLOSED }

/-- A concrete breaker sitting in HALFOPEN with no successes yet. -/
def halfopenBreaker : Breaker := { openBreaker with state := .HALFOPEN }

/-- A concrete breaker sitting in HALFOPEN, one success short of the
threshold. -/
def halfopenBreaker1 : Breaker :=
  { openBreaker with state := .HALFOPEN, halfopenSuccess := 1 }

/-- A concrete OPEN breaker with the default 5 s cooling timeout whose
injected clock reads `c`; the system wall clock is a separate input. -/
def c3Breaker (c : Int) : Breaker :=
  { container := w100, state := .OPEN, openTime := 0, lastRetryTime := 0,
    halfopenSuccess := 0,
    options := { sampleOptions with CoolingTimeout := 5000000000, now := some c },
    now := c }

/-- Options with a positive bucket count below 100. -/
def badOptions : Options := { sampleOptions with BucketNums := 50 }

/-- Options with non-positive bucket count and bucket time. -/
def zeroOptions : Options := { sampleOptions with BucketTime := 0, BucketNums := 0 }

theorem getD_set_self (l : List Bucket) (i : Nat) (x d : Bucket) (h : i < l.length) :
    (l.set i x).getD i d = x := by
  induction l generalizing i with
  | nil => simp at h
  | cons a l ih =>
    cases i with
    | zero => simp
    | succ n => simpa using ih n (by simpa using h)

theorem getD_set_ne (l : List Bucket) (i j : Nat) (x d : Bucket) (h : i ≠ j) :
    (l.set i x).getD j d = l.getD j d := by
  induction l generalizing i j with
  | nil => simp
  | cons a l ih =>
    cases i with
    | zero =>
      cases j with
      | zero => exact absurd rfl h
      | succ m => simp
    | succ n =>
      cases j with
      | zero => simp
      | succ m => simpa using ih n m (by omega)

theorem getD_replicate (n i : Nat) (d e : Bucket) :
    (List.replicate n d).getD i e = if i < n then d else e := by
  induction n generalizing i with
  | zero => simp
  | succ m ih =>
    cases i with
    | zero => simp
    | succ k => simpa [List.replicate_succ] using ih k

/-- Length is preserved when the ring locates its writable bucket. -/
theorem latestBucket_length (w : Window) (t : Int) :
    (w.latestBucket t).1.buckets.length = w.buckets.length := by
  simp only [Window.latestBucket]
  split_ifs <;> simp [List.length_set]

/-- The located bucket counter increases by exactly one on each record
operation (relative to the window returned by `latestBucket`). -/
theorem record_bucket_inc (w : Window) (t : Int)
    (hidx : (w.latestBucket t).2 < w.buckets.length) :
    ((w.Fail t).getB (w.latestBucket t).2).failure
      = ((w.latestBucket t).1.getB (w.latestBucket t).2).failure + 1 ∧
    ((w.Timeout t).getB (w.latestBucket t).2).timeout
      = ((w.latestBucket t).1.getB (w.latestBucket t).2).timeout + 1 ∧
    ((w.Succeed t).getB (w.latestBucket t).2).success
      = ((w.latestBucket t).1.getB (w.latestBucket t).2).success + 1 := by
  have hidx1 : (w.latestBucket t).2 < (w.latestBucket t).1.buckets.length := by
    rw [latestBucket_length]; exact hidx
  refine ⟨?_, ?_, ?_⟩ <;>
    · simp only [Window.Fail, Window.Timeout, Window.Succeed, Window.getB]
      rw [getD_set_self _ _ _ _ hidx1]

/-- C1, counterexample: on the concrete OPEN breaker `openBreaker`, a
`Fail` report does change the Container counters — the failure counter of
the window goes from 0 to 1, although the state is OPEN.  The claim says
every outcome report in OPEN leaves the counters unchanged. -/
theorem C1_cex :
    openBreaker.state = State.OPEN ∧
    openBreaker.container.Failures 0 = 0 ∧
    ((openBreaker.Fail 0).1.container.Failures 0) = 1 := by
  refine ⟨rfl, by decide, by decide⟩

/-- C1, amended: while the state is OPEN, no outcome report changes the
breaker state, and `Succeed` is entirely ignored (not forwarded), but
`Fail` and `Timeout` are still forwarded to the Container. -/
theorem C1_open_frame (b : Breaker) (t : Int) (isT : Bool) (trip : Option TripFunc)
    (h : b.state = .OPEN) :
    b.Succeed t = (b, []) ∧
    (b.error isT trip t).1.state = State.OPEN ∧
    (b.error isT trip t).1.container =
      (if isT then b.container.Timeout t else b.container.Fail t) ∧
    (b.error isT trip t).2 = [] := by
  unfold Breaker.Succeed Breaker.error
  simp [h]

/-- C1, witness for `C1_open_frame` at the concrete OPEN breaker. -/
theorem C1_open_frame_w :
    openBreaker.state = State.OPEN ∧
    (openBreaker.Succeed 0 = (openBreaker, []) ∧
     (openBreaker.error false none 0).1.state = State.OPEN ∧
     (openBreaker.error false none 0).1.container =
       (if false then openBreaker.container.Timeout 0 else openBreaker.container.Fail 0) ∧
     (openBreaker.error false none 0).2 = []) :=
  ⟨rfl, C1_open_frame openBreaker 0 false none rfl⟩

/-- C2, counterexample: on the concrete OPEN breaker, `Succeed` does not
record into the Container — the success counter stays 0 instead of
increasing by one, contradicting the claim that every call records in
every state. -/
theorem C2_cex :
    openBreaker.state = State.OPEN ∧
    openBreaker.container.Successes 0 = 0 ∧
    ((openBreaker.Succeed 0).1.container.Successes 0) = 0 := by
  refine ⟨rfl, by decide, by decide⟩

/-- C2, amended: the error path (`Fail`, `Timeout` and the `WithTrip`
variants all go through `Breaker.error`) records the outcome into the
Container in every state, and the located bucket counter increases by
one; `Succeed` records into the Container only in CLOSED. -/
theorem C2_records (b : Breaker) (t : Int) (isT : Bool) (trip : Option TripFunc) :
    ((b.error isT trip t).1.container =
      (if isT then b.container.Timeout t else b.container.Fail t)) ∧
    (b.state = State.CLOSED → (b.Succeed t).1.container = b.container.Succeed t) ∧
    ((b.container.latestBucket t).2 < b.container.buckets.length →
      ((b.container.Fail t).getB (b.container.latestBucket t).2).failure
        = ((b.container.latestBucket t).1.getB (b.container.latestBucket t).2).failure + 1 ∧
      ((b.container.Timeout t).getB (b.container.latestBucket t).2).timeout
        = ((b.container.latestBucket t).1.getB (b.container.latestBucket t).2).timeout + 1 ∧
      ((b.container.Succeed t).getB (b.container.latestBucket t).2).success
        = ((b.container.latestBucket t).1.getB (b.container.latestBucket t).2).success + 1) := by
  refine ⟨?_, fun h => ?_, fun hidx => record_bucket_inc b.container t hidx⟩
  · unfold Breaker.error
    cases isT <;> cases hb : b.state <;> cases trip <;> simp [hb]
    all_goals split <;> rfl
  · unfold Breaker.Succeed
    simp [h]

/-- C2, witness for `C2_records` at the concrete CLOSED breaker. -/
theorem C2_records_w :
    closedBreaker.state = State.CLOSED ∧
    (closedBreaker.Succeed 0).1.container = closedBreaker.container.Succeed 0 ∧
    ((closedBreaker.error false none 0).1.container =
      (if false then closedBreaker.container.Timeout 0 else closedBreaker.container.Fail 0)) ∧
    (closedBreaker.container.latestBucket 0).2 < closedBreaker.container.buckets.length ∧
    ((closedBreaker.container.Fail 0).getB (closedBreaker.container.latestBucket 0).2).failure
      = ((closedBreaker.container.latestBucket 0).1.getB
          (closedBreaker.container.latestBucket 0).2).failure + 1 := by
  have h := C2_records closedBreaker 0 false none
  have hidx : (closedBreaker.container.latestBucket 0).2 <
      closedBreaker.container.buckets.length := by decide
  exact ⟨rfl, h.2.1 rfl, h.1, hidx, (h.2.2 hidx).1⟩

/-- C3: the breaker stores the injected clock (field `now`) but never
reads it; the admission decision is a function of the system wall clock
parameter only.  With the system clock at 1 s and the breaker OPEN since
time 0 with a 5 s cooling timeout, `IsAllowed` returns false for every
possible reading `c` of the injected clock — including readings past the
cooling expiry — while at system time 6 s it returns true regardless of
`c`.  This contradicts the claim that every time comparison reads the
configured now function. -/
theorem C3_clock_ignored (c : Int) :
    ((c3Breaker c).isAllowed 1000000000).2 = false ∧
    ((c3Breaker c).isAllowed 6000000000).2 = true ∧
    (c3Breaker c).now = c := by
  refine ⟨rfl, rfl, rfl⟩

/-- C3, witness: the injected clock reading 10 s is past the cooling
expiry, yet admission at system time 1 s is denied. -/
theorem C3_clock_ignored_w :
    ((c3Breaker 10000000000).isAllowed 1000000000).2 = false ∧
    ((c3Breaker 10000000000).isAllowed 6000000000).2 = true ∧
    (c3Breaker 10000000000).now = 10000000000 :=
  C3_clock_ignored 10000000000

/-- C4: for `IsAllowed` in OPEN, `now` before `openTime + cooling` denies
and changes nothing; `now` at or past it allows and moves to HALFOPEN
with `halfopenSuccess = 0` and `lastRetryTime = now`. -/
theorem C4_open_isAllowed (b : Breaker) (t : Int) (h : b.state = .OPEN) :
    (t < b.openTime + b.options.CoolingTimeout → b.isAllowed t = (b, false)) ∧
    (b.openTime + b.options.CoolingTimeout ≤ t →
      b.isAllowed t =
        ({ b with state := .HALFOPEN, halfopenSuccess := 0, lastRetryTime := t }, true)) := by
  constructor <;> intro hc <;> unfold Breaker.isAllowed <;> simp [h]
  · exact hc
  · omega

/-- C4, witness for `C4_open_isAllowed` on the concrete OPEN breaker
(cooling timeout 5): denied at time 1, allowed at time 7 with the
HALFOPEN transition. -/
theorem C4_open_isAllowed_w :
    openBreaker.state = State.OPEN ∧
    (1:Int) < openBreaker.openTime + openBreaker.options.CoolingTimeout ∧
    openBreaker.isAllowed 1 = (openBreaker, false) ∧
    openBreaker.openTime + openBreaker.options.CoolingTimeout ≤ 7 ∧
    openBreaker.isAllowed 7 =
      ({ openBreaker with state := .HALFOPEN, halfopenSuccess := 0, lastRetryTime := 7 }, true) :=
  ⟨rfl, by decide, (C4_open_isAllowed openBreaker 1 rfl).1 (by decide),
   by decide, (C4_open_isAllowed openBreaker 7 rfl).2 (by decide)⟩

/-- C5: `Succeed` in HALFOPEN below the threshold keeps HALFOPEN and
increments the counter without touching the Container; reaching the
threshold notifies the handler (when configured), resets the Container
and closes. -/
theorem C5_halfopen_succeed (b : Breaker) (t : Int) (h : b.state = .HALFOPEN) :
    (b.halfopenSuccess + 1 < b.options.HalfOpenSuccess →
      (b.Succeed t).1.state = State.HALFOPEN ∧
      (b.Succeed t).1.halfopenSuccess = b.halfopenSuccess + 1 ∧
      (b.Succeed t).1.container = b.container ∧
      (b.Succeed t).2 = []) ∧
    (b.halfopenSuccess + 1 = b.options.HalfOpenSuccess →
      (b.Succeed t).1.state = State.CLOSED ∧
      (b.Succeed t).1.container = b.container.Reset t ∧
      (b.Succeed t).2 =
        (if b.options.StateChangeHandler then [(State.HALFOPEN, State.CLOSED)] else [])) := by
  constructor <;> intro hc <;> unfold Breaker.Succeed <;> simp only [h]
  · rw [if_neg (by omega)]
    exact ⟨rfl, rfl, rfl, rfl⟩
  · rw [if_pos (by omega)]
    exact ⟨rfl, rfl, rfl⟩

/-- C5, witness for `C5_halfopen_succeed`: one success below the
threshold stays HALFOPEN; the success reaching the threshold (2) closes
and resets the Container. -/
theorem C5_halfopen_succeed_w :
    halfopenBreaker.state = State.HALFOPEN ∧
    halfopenBreaker.halfopenSuccess + 1 < halfopenBreaker.options.HalfOpenSuccess ∧
    ((halfopenBreaker.Succeed 0).1.state = State.HALFOPEN ∧
     (halfopenBreaker.Succeed 0).1.halfopenSuccess = halfopenBreaker.halfopenSuccess + 1 ∧
     (halfopenBreaker.Succeed 0).1.container = halfopenBreaker.container ∧
     (halfopenBreaker.Succeed 0).2 = []) ∧
    halfopenBreaker1.halfopenSuccess + 1 = halfopenBreaker1.options.HalfOpenSuccess ∧
    ((halfopenBreaker1.Succeed 3).1.state = State.CLOSED ∧
     (halfopenBreaker1.Succeed 3).1.container = halfopenBreaker1.container.Reset 3 ∧
     (halfopenBreaker1.Succeed 3).2 =
       (if halfopenBreaker1.options.StateChangeHandler
        then [(State.HALFOPEN, State.CLOSED)] else [])) :=
  ⟨rfl, by decide, (C5_halfopen_succeed halfopenBreaker 0 rfl).1 (by decide),
   by decide, (C5_halfopen_succeed halfopenBreaker1 3 rfl).2 (by decide)⟩

/-- The bucket 0 of a freshly Reset window has all three counters zero. -/
theorem reset_bucket_zero (w : Window) (t : Int) :
    ((w.Reset t).getB 0).success = 0 ∧ ((w.Reset t).getB 0).failure = 0 ∧
    ((w.Reset t).getB 0).timeout = 0 := by
  unfold Window.Reset Window.getB
  rcases w.buckets with _ | ⟨a, l⟩ <;> exact ⟨rfl, rfl, rfl⟩

/-- C6: immediately after `Breaker.Reset` at time `t`, the state is
CLOSED, `Samples` at `t` is 0 and `ConsecutiveErrors` is 0 — the buckets
that `window.Reset` left untouched are out of the logical window
(`inWindow = 1`) and contribute nothing. -/
theorem C6_reset_roundtrip (b : Breaker) (t : Int) :
    (b.Reset t).State = State.CLOSED ∧
    (b.Reset t).container.Samples t = 0 ∧
    (b.Reset t).container.ConsecutiveErrors = 0 := by
  refine ⟨rfl, ?_, rfl⟩
  have hz := reset_bucket_zero b.container t
  show (b.container.Reset t).Samples t = 0
  unfold Window.Samples Window.CountsV Window.Counts Window.expire
  have h1 : (b.container.Reset t).inWindow = 1 := rfl
  rw [h1]
  unfold Window.expireAux
  split
  · split
    · simp [Window.countsAux]
    · have h0 : (b.container.Reset t).oldest = 0 := rfl
      simp [Window.countsAux, h0, hz.1, hz.2.1, hz.2.2]
  · have h0 : (b.container.Reset t).oldest = 0 := rfl
    simp [Window.countsAux, h0, hz.1, hz.2.1, hz.2.2]

/-- C6, witness for `C6_reset_roundtrip` on the concrete OPEN breaker at
time 5. -/
theorem C6_reset_roundtrip_w :
    (openBreaker.Reset 5).State = State.CLOSED ∧
    (openBreaker.Reset 5).container.Samples 5 = 0 ∧
    (openBreaker.Reset 5).container.ConsecutiveErrors = 0 :=
  C6_reset_roundtrip openBreaker 5

/-- C9: `NewBreaker` fails exactly when the supplied bucket count is
positive but below 100 (non-positive counts are silently replaced by the
default 100 and succeed), and a non-positive `BucketTime` is silently
replaced by the 100 ms default. -/
theorem C9_construction (o : Options) (t : Int) :
    ((0 < o.BucketNums ∧ o.BucketNums < 100) → (NewBreaker o t).isOk = false) ∧
    ((o.BucketNums ≤ 0 ∨ 100 ≤ o.BucketNums) → (NewBreaker o t).isOk = true) ∧
    (o.BucketTime ≤ 0 → (o.BucketNums ≤ 0 ∨ 100 ≤ o.BucketNums) →
      okBucketTime (NewBreaker o t) = some DEFAULT_BUCKET_TIME) := by
  refine ⟨fun hc => ?_, fun hc => ?_, fun h1 h2 => ?_⟩
  · simp only [NewBreaker, NewWindowWithOptions]
    rw [if_neg (by omega : ¬ o.BucketNums ≤ 0),
        if_pos (show o.BucketNums < 100 from hc.2)]
    rfl
  · simp only [NewBreaker, NewWindowWithOptions]
    rcases hc with hle | hge
    · rw [if_pos hle,
          if_neg (show ¬ DEFAULT_BUCKET_NUMS < 100 by norm_num [DEFAULT_BUCKET_NUMS])]
      rfl
    · rw [if_neg (by omega : ¬ o.BucketNums ≤ 0),
          if_neg (by omega : ¬ o.BucketNums < 100)]
      rfl
  · simp only [NewBreaker, NewWindowWithOptions, okBucketTime]
    rw [if_pos h1]
    rcases h2 with hle | hge
    · rw [if_pos hle,
          if_neg (show ¬ DEFAULT_BUCKET_NUMS < 100 by norm_num [DEFAULT_BUCKET_NUMS])]
      rfl
    · rw [if_neg (by omega : ¬ o.BucketNums ≤ 0),
          if_neg (by omega : ¬ o.BucketNums < 100)]
      rfl

/-- C9, witness for `C9_construction`: a bucket count of 50 is rejected;
bucket count 0 and bucket time 0 are replaced by defaults and accepted,
the bucket duration becoming the default 100 ms. -/
theorem C9_construction_w :
    (0 < badOptions.BucketNums ∧ badOptions.BucketNums < 100) ∧
    (NewBreaker badOptions 0).isOk = false ∧
    (zeroOptions.BucketNums ≤ 0 ∨ 100 ≤ zeroOptions.BucketNums) ∧
    (NewBreaker zeroOptions 0).isOk = true ∧
    zeroOptions.BucketTime ≤ 0 ∧
    okBucketTime (NewBreaker zeroOptions 0) = some DEFAULT_BUCKET_TIME :=
  ⟨by decide, (C9_construction badOptions 0).1 (by decide),
   by decide, (C9_construction zeroOptions 0).2.1 (by decide),
   by decide, (C9_construction zeroOptions 0).2.2 (by decide) (by decide)⟩

/-- C10: `FailWithTrip nil` and `TimeoutWithTrip nil` in CLOSED record
the outcome into the Container and leave everything else (the state in
particular) unchanged: the nil predicate is guarded and never applied. -/
theorem C10_nil_trip (b : Breaker) (t : Int) (h : b.state = State.CLOSED) :
    b.FailWithTrip none t = ({ b with container := b.container.Fail t }, []) ∧
    b.TimeoutWithTrip none t = ({ b with container := b.container.Timeout t }, []) := by
  unfold Breaker.FailWithTrip Breaker.TimeoutWithTrip Breaker.error
  simp [h]

/-- C10, witness for `C10_nil_trip` at the concrete CLOSED breaker. -/
theorem C10_nil_trip_w :
    closedBreaker.state = State.CLOSED ∧
    (closedBreaker.FailWithTrip none 0 =
      ({ closedBreaker with container := closedBreaker.container.Fail 0 }, []) ∧
     closedBreaker.TimeoutWithTrip none 0 =
      ({ closedBreaker with container := closedBreaker.container.Timeout 0 }, [])) :=
  ⟨rfl, C10_nil_trip closedBreaker 0 rfl⟩

/-- `expireAux` never increases `inWindow` and never touches
`bucketNums`. -/
theorem expireAux_bounds (t : Int) : ∀ (fuel : Nat) (w : Window),
    (Window.expireAux t fuel w).inWindow ≤ w.inWindow ∧
    (Window.expireAux t fuel w).bucketNums = w.bucketNums := by
  intro fuel
  induction fuel with
  | zero => intro w; exact ⟨le_rfl, rfl⟩
  | succ n ih =>
    intro w
    unfold Window.expireAux
    split
    · split
      · refine ⟨le_trans (ih _).1 ?_, (ih _).2⟩
        simp only []
        omega
      · exact ⟨le_rfl, rfl⟩
    · exact ⟨le_rfl, rfl⟩

/-- `latestBucket` keeps `inWindow` within the bucket count. -/
theorem latestBucket_bounds (w : Window) (t : Int) (h : w.inWindow ≤ w.bucketNums) :
    (w.latestBucket t).1.inWindow ≤ (w.latestBucket t).1.bucketNums ∧
    (w.latestBucket t).1.bucketNums = w.bucketNums := by
  simp only [Window.latestBucket]
  split_ifs <;> refine ⟨?_, rfl⟩ <;> simp only [] <;> omega

/-- One window operation keeps `inWindow` within the bucket count (which
itself never changes). -/
theorem wstep_bounds (w : Window) (op : WOp)
    (h : w.inWindow ≤ w.bucketNums) (hN : 1 ≤ w.bucketNums) :
    (wstep w op).inWindow ≤ (wstep w op).bucketNums ∧
    (wstep w op).bucketNums = w.bucketNums := by
  cases op with
  | succeed t =>
    exact ⟨(latestBucket_bounds w t h).1, (latestBucket_bounds w t h).2⟩
  | fail t =>
    exact ⟨(latestBucket_bounds w t h).1, (latestBucket_bounds w t h).2⟩
  | timeout t =>
    exact ⟨(latestBucket_bounds w t h).1, (latestBucket_bounds w t h).2⟩
  | counts t =>
    obtain ⟨h1, h2⟩ := expireAux_bounds t w.inWindow w
    exact ⟨by show (Window.expireAux t w.inWindow w).inWindow ≤
                 (Window.expireAux t w.inWindow w).bucketNums
              rw [h2]; exact le_trans h1 h,
           h2⟩
  | reset t =>
    exact ⟨hN, rfl⟩

/-- Folded form of `wstep_bounds` over an operation sequence. -/
theorem runW_bounds (ops : List WOp) : ∀ (w : Window),
    w.inWindow ≤ w.bucketNums → 1 ≤ w.bucketNums →
    (runW w ops).inWindow ≤ (runW w ops).bucketNums ∧
    1 ≤ (runW w ops).bucketNums := by
  induction ops with
  | nil => intro w h hN; exact ⟨h, hN⟩
  | cons op ops ih =>
    intro w h hN
    have hs := wstep_bounds w op h hN
    have hN2 : 1 ≤ (wstep w op).bucketNums := by rw [hs.2]; exact hN
    exact ih (wstep w op) hs.1 hN2

/-- The state of a freshly constructed window. -/
theorem newWindow_init (bt bn t0 : Int) (w0 : Window)
    (h : NewWindowWithOptions bt bn t0 = .ok w0) :
    w0.inWindow = 1 ∧ 100 ≤ w0.bucketNums ∧ w0.oldest = 0 ∧ w0.latest = 0 ∧
    w0.bucketTime = bt ∧ w0.expireTime = bt * bn ∧ 100 ≤ bn ∧
    w0.buckets.length = w0.bucketNums := by
  unfold NewWindowWithOptions at h
  split at h
  · cases h
  · rename_i hbn
    cases h
    refine ⟨rfl, ?_, rfl, rfl, rfl, rfl, by omega, ?_⟩
    · show (100 : Nat) ≤ bn.toNat
      omega
    · simp [Window.Reset]

/-- C7, counterexample: from a freshly constructed window (1 ns buckets,
100 of them, built at time 0), a single `Counts` call at time 100 expires
every bucket and leaves `inWindow = 0`, refuting the claimed invariant
`1 ≤ inWindow`. -/
theorem C7_cex :
    NewWindowWithOptions 1 100 0 = .ok w100 ∧
    (runW w100 [WOp.counts 100]).inWindow = 0 := ⟨rfl, rfl⟩

/-- C7, amended: in every reachable state of the window the upper bound
`inWindow ≤ bucketNums` holds; the lower bound is only `0 ≤ inWindow`,
because the expiry pass of a `Counts` call can empty the window. -/
theorem C7_inWindow_bound (bt bn t0 : Int) (w0 : Window) (ops : List WOp)
    (h : NewWindowWithOptions bt bn t0 = .ok w0) :
    (runW w0 ops).inWindow ≤ (runW w0 ops).bucketNums := by
  obtain ⟨h1, h2, _⟩ := newWindow_init bt bn t0 w0 h
  exact (runW_bounds ops w0 (by omega) (by omega)).1

/-- C7, witness for `C7_inWindow_bound` on a concrete construction and
operation sequence. -/
theorem C7_inWindow_bound_w :
    NewWindowWithOptions 1 100 0 = .ok w100 ∧
    (runW w100 [WOp.fail 1]).inWindow ≤ (runW w100 [WOp.fail 1]).bucketNums :=
  ⟨rfl, C7_inWindow_bound 1 100 0 w100 [WOp.fail 1] rfl⟩

/-- Time stamp of the bucket in slot `j`. -/
def Window.stampAt (w : Window) (j : Nat) : Int := (w.getB j).timeStamp

/-- Combined counter value of the bucket in slot `j`. -/
def Window.cnt (w : Window) (j : Nat) : Nat :=
  (w.getB j).success + (w.getB j).failure + (w.getB j).timeout

/-- The slot holding the k-th in-window bucket, counting from the
oldest. -/
def Window.idx (w : Window) (k : Nat) : Nat := (w.oldest + k) % w.bucketNums

/-- The sample count carried by one `(successes, failures, timeouts)`
triple. -/
def sampleOf (c : Nat × Nat × Nat) : Nat := c.1 + c.2.1 + c.2.2

/-- The inductive invariant tying the ring-position fields of a window to
its bucket stamps and counters, relative to the time `tL` of the last
operation: the buckets list has its advertised length, the in-window
slots run from `oldest` to `latest` with non-decreasing stamps bounded by
`tL`, out-of-window slots are counter-free or already expired at `tL`,
and the length parameters are positive and consistent. -/
structure WInv (w : Window) (tL : Int) : Prop where
  hlen : w.buckets.length = w.bucketNums
  hN : 1 ≤ w.bucketNums
  hin : w.inWindow ≤ w.bucketNums
  hold : w.oldest < w.bucketNums
  hlat : w.latest < w.bucketNums
  hlatwin : 1 ≤ w.inWindow → w.latest = w.idx (w.inWindow - 1)
  hempty : w.inWindow = 0 →
    w.oldest = (w.latest + 1) % w.bucketNums ∧ w.stampAt w.latest + w.expireTime ≤ tL
  hmono : ∀ k k', k ≤ k' → k' < w.inWindow → w.stampAt (w.idx k) ≤ w.stampAt (w.idx k')
  hstamp : ∀ k, k < w.inWindow → w.stampAt (w.idx k) ≤ tL
  hdead : ∀ j, j < w.bucketNums → (∀ k, k < w.inWindow → j ≠ w.idx k) →
    w.cnt j = 0 ∨ w.stampAt j + w.expireTime ≤ tL
  hexp : w.expireTime = w.bucketTime * (w.bucketNums : Int)
  hbt : 0 < w.bucketTime

/-- A window invariant at time `tL` also holds at any later time. -/
theorem WInv.mono {w : Window} {tL t : Int} (h : WInv w tL) (ht : tL ≤ t) : WInv w t :=
  { hlen := h.hlen, hN := h.hN, hin := h.hin, hold := h.hold, hlat := h.hlat,
    hlatwin := h.hlatwin,
    hempty := fun h0 => ⟨(h.hempty h0).1, le_trans (h.hempty h0).2 ht⟩,
    hmono := h.hmono,
    hstamp := fun k hk => le_trans (h.hstamp k hk) ht,
    hdead := fun j hj hout => (h.hdead j hj hout).imp id (fun hd => le_trans hd ht),
    hexp := h.hexp, hbt := h.hbt }

/-- The wrapping advance written with `Nat.le` in the source equals the
mod-based successor. -/
theorem succWrapLe (x N : Nat) (h : x < N) :
    (if N ≤ x + 1 then 0 else x + 1) = (x + 1) % N := by
  split_ifs with h1
  · have hx : x + 1 = N := by omega
    simp [hx]
  · rw [Nat.mod_eq_of_lt (by omega)]

/-- The wrapping advance written with equality in the source equals the
mod-based successor. -/
theorem succWrapEq (x N : Nat) (h : x < N) :
    (if x + 1 = N then 0 else x + 1) = (x + 1) % N := by
  split_ifs with h1
  · simp [h1]
  · rw [Nat.mod_eq_of_lt (by omega)]

/-- In-window slots are valid ring positions. -/
theorem idx_lt (w : Window) (k : Nat) (hN : 1 ≤ w.bucketNums) :
    w.idx k < w.bucketNums := Nat.mod_lt _ (by omega)

/-- The map from window offsets to ring slots is injective below the
ring size. -/
theorem idx_inj (w : Window) (k k' : Nat) (hk : k < w.bucketNums) (hk' : k' < w.bucketNums)
    (h : w.idx k = w.idx k') : k = k' := by
  unfold Window.idx at h
  have h2 := Nat.ModEq.add_left_cancel' w.oldest (h : (w.oldest + k) % w.bucketNums
    = (w.oldest + k') % w.bucketNums)
  rwa [Nat.ModEq, Nat.mod_eq_of_lt hk, Nat.mod_eq_of_lt hk'] at h2

/-- Every ring slot is some window offset below the ring size. -/
theorem idx_surj (w : Window) (j : Nat) (ho : w.oldest < w.bucketNums)
    (hj : j < w.bucketNums) : ∃ k, k < w.bucketNums ∧ w.idx k = j := by
  refine ⟨(j + w.bucketNums - w.oldest) % w.bucketNums, Nat.mod_lt _ (by omega), ?_⟩
  unfold Window.idx
  rw [Nat.add_mod_mod]
  have h1 : w.oldest + (j + w.bucketNums - w.oldest) = j + w.bucketNums := by omega
  rw [h1, Nat.add_mod_right, Nat.mod_eq_of_lt hj]

/-- The invariant holds for a freshly constructed window at its build
time. -/
theorem winv_init (bt bn t0 : Int) (w0 : Window) (hbt : 0 < bt)
    (h : NewWindowWithOptions bt bn t0 = .ok w0) : WInv w0 t0 := by
  unfold NewWindowWithOptions at h
  split at h
  · cases h
  · rename_i hbn
    cases h
    have hNpos : 0 < bn.toNat := by omega
    show WInv
      { oldest := 0, latest := 0,
        buckets := (List.replicate bn.toNat (default : Bucket)).set 0
          { failure := 0, success := 0, timeout := 0, timeStamp := t0 },
        bucketTime := bt, bucketNums := bn.toNat, expireTime := bt * bn,
        inWindow := 1, conseErr := 0 } t0
    refine { hlen := ?_, hN := hNpos, hin := hNpos,
             hold := hNpos, hlat := hNpos,
             hlatwin := fun _ => ?_, hempty := fun h0 => absurd h0 one_ne_zero,
             hmono := ?_, hstamp := ?_, hdead := ?_, hexp := ?_, hbt := hbt }
    · show ((List.replicate bn.toNat (default : Bucket)).set 0
        { failure := 0, success := 0, timeout := 0, timeStamp := t0 }).length = bn.toNat
      simp
    · show (0 : Nat) = (0 + (1 - 1)) % bn.toNat
      simp
    · intro k k' hk hk'
      have hk'1 : k' < 1 := hk'
      have hk'0 : k' = 0 := by omega
      have hk0 : k = 0 := by omega
      subst hk'0; subst hk0
      exact le_rfl
    · intro k hk
      have hk1 : k < 1 := hk
      have hk0 : k = 0 := by omega
      subst hk0
      show Window.stampAt _ ((0 + 0) % bn.toNat) ≤ t0
      have hz : (0 + 0) % bn.toNat = 0 := by simp
      rw [hz]
      unfold Window.stampAt Window.getB
      rw [getD_set_self _ _ _ _ (by simpa using hNpos)]
    · intro j hj hout
      have hj0 : j ≠ 0 := by
        intro hc
        subst hc
        refine hout 0 Nat.zero_lt_one ?_
        show (0 : Nat) = (0 + 0) % bn.toNat
        simp
      left
      show Window.cnt _ j = 0
      unfold Window.cnt Window.getB
      show ((((List.replicate bn.toNat (default : Bucket)).set 0
          { failure := 0, success := 0, timeout := 0, timeStamp := t0 }).getD j default)).success
        + ((((List.replicate bn.toNat (default : Bucket)).set 0
          { failure := 0, success := 0, timeout := 0, timeStamp := t0 }).getD j default)).failure
        + ((((List.replicate bn.toNat (default : Bucket)).set 0
          { failure := 0, success := 0, timeout := 0, timeStamp := t0 }).getD j default)).timeout = 0
      rw [getD_set_ne _ _ _ _ _ (fun hc => hj0 hc.symm), getD_replicate]
      split <;> rfl
    · show bt * bn = bt * ((bn.toNat : Nat) : Int)
      rw [Int.toNat_of_nonneg (by omega)]

/-- Removing an expired oldest bucket preserves the window invariant. -/
theorem expire_step_winv (w : Window) (t : Int) (h : WInv w t)
    (h0 : 0 < w.inWindow)
    (hex : w.stampAt w.oldest + w.expireTime ≤ t) :
    WInv { w with oldest := (w.oldest + 1) % w.bucketNums,
                  inWindow := w.inWindow - 1 } t := by
  have hN1 : 0 < w.bucketNums := by have := h.hN; omega
  have hidx2 : ∀ k, ((w.oldest + 1) % w.bucketNums + k) % w.bucketNums
      = w.idx (k + 1) := by
    intro k
    unfold Window.idx
    rw [Nat.mod_add_mod]
    congr 1
    omega
  have hlat0 : w.inWindow = 1 → w.latest = w.oldest := by
    intro h1
    rw [h.hlatwin (by omega), h1]
    show (w.oldest + (1 - 1)) % w.bucketNums = w.oldest
    simp [Nat.mod_eq_of_lt h.hold]
  refine { hlen := h.hlen, hN := h.hN, hin := ?_, hold := ?_, hlat := h.hlat,
           hlatwin := ?_, hempty := ?_, hmono := ?_, hstamp := ?_, hdead := ?_,
           hexp := h.hexp, hbt := h.hbt }
  · show w.inWindow - 1 ≤ w.bucketNums
    have := h.hin
    omega
  · show (w.oldest + 1) % w.bucketNums < w.bucketNums
    exact Nat.mod_lt _ hN1
  · intro h1
    have h1' : 1 ≤ w.inWindow - 1 := h1
    show w.latest = ((w.oldest + 1) % w.bucketNums + (w.inWindow - 1 - 1)) % w.bucketNums
    rw [hidx2]
    have he : w.inWindow - 1 - 1 + 1 = w.inWindow - 1 := by omega
    rw [he]
    exact h.hlatwin (by omega)
  · intro h2
    have h2' : w.inWindow - 1 = 0 := h2
    have h21 : w.inWindow = 1 := by omega
    constructor
    · show (w.oldest + 1) % w.bucketNums = (w.latest + 1) % w.bucketNums
      rw [hlat0 h21]
    · show w.stampAt w.latest + w.expireTime ≤ t
      rw [hlat0 h21]
      exact hex
  · intro k k' hk hk'
    have hk'1 : k' < w.inWindow - 1 := hk'
    show w.stampAt (((w.oldest + 1) % w.bucketNums + k) % w.bucketNums)
      ≤ w.stampAt (((w.oldest + 1) % w.bucketNums + k') % w.bucketNums)
    rw [hidx2, hidx2]
    exact h.hmono (k + 1) (k' + 1) (by omega) (by omega)
  · intro k hk
    have hk1 : k < w.inWindow - 1 := hk
    show w.stampAt (((w.oldest + 1) % w.bucketNums + k) % w.bucketNums) ≤ t
    rw [hidx2]
    exact h.hstamp (k + 1) (by omega)
  · intro j hj hout
    have hj1 : j < w.bucketNums := hj
    by_cases hjo : j = w.oldest
    · right
      show w.stampAt j + w.expireTime ≤ t
      rw [hjo]
      exact hex
    · have hout' : ∀ k, k < w.inWindow → j ≠ w.idx k := by
        intro k hk
        cases k with
        | zero =>
          intro hc
          apply hjo
          rw [hc]
          show w.idx 0 = w.oldest
          simp [Window.idx, Nat.mod_eq_of_lt h.hold]
        | succ k2 =>
          intro hc
          exact hout k2 (show k2 < w.inWindow - 1 by omega)
            (by rw [hc]; exact (hidx2 k2).symm)
      exact h.hdead j hj1 hout'

/-- The expiry loop preserves the invariant, never touches buckets or
window parameters, and leaves the front bucket unexpired whenever any
bucket remains. -/
theorem expireAux_winv (t : Int) : ∀ (fuel : Nat) (w : Window),
    WInv w t → w.inWindow ≤ fuel →
    WInv (Window.expireAux t fuel w) t ∧
    (Window.expireAux t fuel w).buckets = w.buckets ∧
    (Window.expireAux t fuel w).bucketNums = w.bucketNums ∧
    (Window.expireAux t fuel w).expireTime = w.expireTime ∧
    (1 ≤ (Window.expireAux t fuel w).inWindow →
      t < (Window.expireAux t fuel w).stampAt (Window.expireAux t fuel w).oldest
        + (Window.expireAux t fuel w).expireTime) := by
  intro fuel
  induction fuel with
  | zero =>
    intro w hW hf
    exact ⟨hW, rfl, rfl, rfl, fun hc => absurd (show 1 ≤ w.inWindow from hc) (by omega)⟩
  | succ n ih =>
    intro w hW hf
    simp only [Window.expireAux]
    rw [succWrapEq w.oldest w.bucketNums hW.hold]
    split_ifs with h1 h2
    · exact ih _ (expire_step_winv w t hW h1 h2) (show w.inWindow - 1 ≤ n by omega)
    · refine ⟨hW, rfl, rfl, rfl, fun _ => ?_⟩
      show t < (w.getB w.oldest).timeStamp + w.expireTime
      exact not_le.mp h2
    · refine ⟨hW, rfl, rfl, rfl, fun hc => ?_⟩
      have hc' : 1 ≤ w.inWindow := hc
      omega

/-- The slot of the invariant window at offset 0 is the oldest slot. -/
theorem idx_zero (w : Window) (ho : w.oldest < w.bucketNums) : w.idx 0 = w.oldest := by
  unfold Window.idx
  simp [Nat.mod_eq_of_lt ho]

/-- One full turn of the ring returns to the oldest slot. -/
theorem idx_full (w : Window) (ho : w.oldest < w.bucketNums) :
    w.idx w.bucketNums = w.oldest := by
  unfold Window.idx
  rw [Nat.add_mod_right, Nat.mod_eq_of_lt ho]

/-- `conseErr` does not occur in the window invariant. -/
theorem winv_conseErr (w : Window) (t : Int) (c : Nat) (h : WInv w t) :
    WInv { w with conseErr := c } t :=
  { hlen := h.hlen, hN := h.hN, hin := h.hin, hold := h.hold, hlat := h.hlat,
    hlatwin := h.hlatwin, hempty := h.hempty, hmono := h.hmono, hstamp := h.hstamp,
    hdead := h.hdead, hexp := h.hexp, hbt := h.hbt }

/-- Overwriting a bucket slot, seen by `stampAt`, at the written slot. -/
theorem stampAt_set_self (w : Window) (i : Nat) (b : Bucket) (hi : i < w.buckets.length) :
    Window.stampAt { w with buckets := w.buckets.set i b } i = b.timeStamp := by
  unfold Window.stampAt Window.getB
  show ((w.buckets.set i b).getD i default).timeStamp = b.timeStamp
  rw [getD_set_self _ _ _ _ hi]

/-- Overwriting a bucket slot, seen by `stampAt`, away from the written
slot. -/
theorem stampAt_set_ne (w : Window) (i : Nat) (b : Bucket) (j : Nat) (hij : i ≠ j) :
    Window.stampAt { w with buckets := w.buckets.set i b } j = w.stampAt j := by
  unfold Window.stampAt Window.getB
  show ((w.buckets.set i b).getD j default).timeStamp = _
  rw [getD_set_ne _ _ _ _ _ hij]

/-- Overwriting a bucket slot, seen by `cnt`, away from the written
slot. -/
theorem cnt_set_ne (w : Window) (i : Nat) (b : Bucket) (j : Nat) (hij : i ≠ j) :
    Window.cnt { w with buckets := w.buckets.set i b } j = w.cnt j := by
  unfold Window.cnt Window.getB
  show ((w.buckets.set i b).getD j default).success
      + ((w.buckets.set i b).getD j default).failure
      + ((w.buckets.set i b).getD j default).timeout = _
  rw [getD_set_ne _ _ _ _ _ hij]

/-- Bumping a counter of the latest bucket (which is in the window)
preserves the invariant: stamps are untouched and out-of-window slots are
untouched. -/
theorem set_counter_winv (w : Window) (t : Int) (h : WInv w t)
    (hwin : 1 ≤ w.inWindow) (b : Bucket)
    (hb : b.timeStamp = w.stampAt w.latest) :
    WInv { w with buckets := w.buckets.set w.latest b } t := by
  have hi : w.latest < w.buckets.length := by rw [h.hlen]; exact h.hlat
  have hst : ∀ j, Window.stampAt { w with buckets := w.buckets.set w.latest b } j
      = w.stampAt j := by
    intro j
    by_cases hij : w.latest = j
    · subst hij
      rw [stampAt_set_self w w.latest b hi]
      exact hb
    · exact stampAt_set_ne w w.latest b j hij
  refine { hlen := ?_, hN := h.hN, hin := h.hin, hold := h.hold, hlat := h.hlat,
           hlatwin := h.hlatwin, hempty := ?_, hmono := ?_, hstamp := ?_,
           hdead := ?_, hexp := h.hexp, hbt := h.hbt }
  · show (w.buckets.set w.latest b).length = w.bucketNums
    rw [List.length_set]
    exact h.hlen
  · intro h0
    exact absurd (show w.inWindow = 0 from h0) (by omega)
  · intro k k' hk hk'
    show Window.stampAt { w with buckets := w.buckets.set w.latest b } (w.idx k)
      ≤ Window.stampAt { w with buckets := w.buckets.set w.latest b } (w.idx k')
    rw [hst (w.idx k), hst (w.idx k')]
    exact h.hmono k k' hk hk'
  · intro k hk
    show Window.stampAt { w with buckets := w.buckets.set w.latest b } (w.idx k) ≤ t
    rw [hst (w.idx k)]
    exact h.hstamp k hk
  · intro j hj hout
    have hj' : j < w.bucketNums := hj
    have hout' : ∀ k, k < w.inWindow → j ≠ w.idx k := hout
    have hjl : j ≠ w.latest := by
      intro hc
      exact hout' (w.inWindow - 1) (by omega) (hc.trans (h.hlatwin hwin))
    rcases h.hdead j hj' hout' with hc | hc
    · left
      show Window.cnt { w with buckets := w.buckets.set w.latest b } j = 0
      rw [cnt_set_ne w w.latest b j (fun hx => hjl hx.symm)]
      exact hc
    · right
      show Window.stampAt { w with buckets := w.buckets.set w.latest b } j
        + w.expireTime ≤ t
      rw [hst j]
      exact hc

/-- Overwriting slot `i` with a fresh zeroed bucket stamped `t`; the
buckets shape produced by the advance branch of `latestBucket` and by
`Reset`. -/
def Window.withFresh (w : Window) (i : Nat) (t : Int) : Window :=
  { w with buckets := w.buckets.set i { failure := 0, success := 0, timeout := 0, timeStamp := t } }

theorem stampAt_withFresh_self (w : Window) (i : Nat) (t : Int) (hi : i < w.buckets.length) :
    (w.withFresh i t).stampAt i = t := by
  unfold Window.withFresh Window.stampAt Window.getB
  show ((w.buckets.set i _).getD i default).timeStamp = t
  rw [getD_set_self _ _ _ _ hi]

theorem stampAt_withFresh_ne (w : Window) (i : Nat) (t : Int) (j : Nat) (hij : i ≠ j) :
    (w.withFresh i t).stampAt j = w.stampAt j := by
  unfold Window.withFresh
  exact stampAt_set_ne w i _ j hij

theorem cnt_withFresh_ne (w : Window) (i : Nat) (t : Int) (j : Nat) (hij : i ≠ j) :
    (w.withFresh i t).cnt j = w.cnt j := by
  unfold Window.withFresh
  exact cnt_set_ne w i _ j hij

theorem length_withFresh (w : Window) (i : Nat) (t : Int) :
    (w.withFresh i t).buckets.length = w.buckets.length := by
  unfold Window.withFresh
  show (w.buckets.set i _).length = _
  rw [List.length_set]

/-- Locating the writable bucket preserves the invariant (now stamped at
the current time), returns the index of the resulting latest slot, and
always leaves at least one bucket in the window. -/
theorem latestBucket_winv (w : Window) (tL t : Int) (h : WInv w tL) (ht : tL ≤ t) :
    WInv (w.latestBucket t).1 t ∧
    (w.latestBucket t).2 = (w.latestBucket t).1.latest ∧
    1 ≤ (w.latestBucket t).1.inWindow := by
  have hN1 : 0 < w.bucketNums := by have := h.hN; omega
  have hbtle : w.bucketTime ≤ w.expireTime := by
    rw [h.hexp]
    have h1 : (1 : Int) ≤ (w.bucketNums : Int) := by exact_mod_cast h.hN
    exact le_mul_of_one_le_right (le_of_lt h.hbt) h1
  by_cases hadv : (w.getB w.latest).timeStamp + w.bucketTime ≤ t
  · by_cases hfull : w.inWindow = w.bucketNums
    · -- the ring is full: latest advances onto the oldest slot
      have hres : w.latestBucket t = ({ w.withFresh ((w.latest + 1) % w.bucketNums) t with latest := (w.latest + 1) % w.bucketNums, oldest := (w.oldest + 1) % w.bucketNums }, (w.latest + 1) % w.bucketNums) := by
        simp only [Window.latestBucket]
        rw [succWrapLe w.latest w.bucketNums h.hlat,
            succWrapLe w.oldest w.bucketNums h.hold,
            if_pos hadv, if_pos hfull]
        rfl
      have hwin1 : 1 ≤ w.inWindow := by omega
      have hl' : (w.latest + 1) % w.bucketNums = w.oldest := by
        rw [h.hlatwin hwin1, hfull]
        unfold Window.idx
        rw [Nat.mod_add_mod]
        have he : w.oldest + (w.bucketNums - 1) + 1 = w.oldest + w.bucketNums := by omega
        rw [he, Nat.add_mod_right, Nat.mod_eq_of_lt h.hold]
      have hlt' : (w.latest + 1) % w.bucketNums < w.buckets.length := by
        rw [h.hlen]
        exact Nat.mod_lt _ hN1
      have key : ∀ j, j ≠ (w.latest + 1) % w.bucketNums → (w.withFresh ((w.latest + 1) % w.bucketNums) t).stampAt j = w.stampAt j := by
        intro j hj
        exact stampAt_withFresh_ne w _ t j (fun hc => hj hc.symm)
      have key2 : (w.withFresh ((w.latest + 1) % w.bucketNums) t).stampAt ((w.latest + 1) % w.bucketNums) = t :=
        stampAt_withFresh_self w _ t hlt'
      have hW2idx : ∀ k, ((w.oldest + 1) % w.bucketNums + k) % w.bucketNums = w.idx (k + 1) := by
        intro k
        unfold Window.idx
        rw [Nat.mod_add_mod]
        congr 1
        omega
      have hidxtop : ∀ k, k + 1 = w.bucketNums → w.idx (k + 1) = (w.latest + 1) % w.bucketNums := by
        intro k hk
        rw [hk, idx_full w h.hold, hl']
      have hidxne : ∀ k, k + 1 < w.bucketNums → w.idx (k + 1) ≠ (w.latest + 1) % w.bucketNums := by
        intro k hk hc
        rw [hl'] at hc
        have hc2 : w.idx (k + 1) = w.idx 0 := by rw [hc, idx_zero w h.hold]
        have := idx_inj w (k + 1) 0 hk hN1 hc2
        omega
      rw [hres]
      refine ⟨{ hlen := ?_, hN := h.hN, hin := h.hin, hold := Nat.mod_lt _ hN1,
                hlat := Nat.mod_lt _ hN1, hlatwin := fun _ => ?_, hempty := fun h0 => ?_,
                hmono := ?_, hstamp := ?_, hdead := ?_, hexp := h.hexp, hbt := h.hbt },
             rfl, ?_⟩
      · show (w.withFresh ((w.latest + 1) % w.bucketNums) t).buckets.length = w.bucketNums
        rw [length_withFresh]
        exact h.hlen
      · show (w.latest + 1) % w.bucketNums = ((w.oldest + 1) % w.bucketNums + (w.inWindow - 1)) % w.bucketNums
        rw [hW2idx, hl']
        have he : w.inWindow - 1 + 1 = w.bucketNums := by omega
        rw [he, idx_full w h.hold]
      · exact absurd (show w.inWindow = 0 from h0) (by omega)
      · intro k k' hk hk'
        have hk'w : k' < w.inWindow := hk'
        show (w.withFresh ((w.latest + 1) % w.bucketNums) t).stampAt (((w.oldest + 1) % w.bucketNums + k) % w.bucketNums) ≤ (w.withFresh ((w.latest + 1) % w.bucketNums) t).stampAt (((w.oldest + 1) % w.bucketNums + k') % w.bucketNums)
        rw [hW2idx k, hW2idx k']
        by_cases hkN' : k' + 1 = w.bucketNums
        · rw [hidxtop k' hkN', key2]
          by_cases hkN : k + 1 = w.bucketNums
          · rw [hidxtop k hkN, key2]
          · rw [key _ (hidxne k (by omega))]
            exact le_trans (h.hstamp (k + 1) (by omega)) ht
        · rw [key _ (hidxne k' (by omega)), key _ (hidxne k (by omega))]
          exact h.hmono (k + 1) (k' + 1) (by omega) (by omega)
      · intro k hk
        have hkw : k < w.inWindow := hk
        show (w.withFresh ((w.latest + 1) % w.bucketNums) t).stampAt (((w.oldest + 1) % w.bucketNums + k) % w.bucketNums) ≤ t
        rw [hW2idx k]
        by_cases hkN : k + 1 = w.bucketNums
        · rw [hidxtop k hkN, key2]
        · rw [key _ (hidxne k (by omega))]
          exact le_trans (h.hstamp (k + 1) (by omega)) ht
      · intro j hj hout
        have hj' : j < w.bucketNums := hj
        obtain ⟨k, hk, hkeq⟩ : ∃ k, k < w.bucketNums ∧ ((w.oldest + 1) % w.bucketNums + k) % w.bucketNums = j := by
          refine ⟨(j + w.bucketNums - (w.oldest + 1) % w.bucketNums) % w.bucketNums, Nat.mod_lt _ hN1, ?_⟩
          have ho2 : (w.oldest + 1) % w.bucketNums < w.bucketNums := Nat.mod_lt _ hN1
          rw [Nat.add_mod_mod]
          have h1 : (w.oldest + 1) % w.bucketNums + (j + w.bucketNums - (w.oldest + 1) % w.bucketNums) = j + w.bucketNums := by
            omega
          rw [h1, Nat.add_mod_right, Nat.mod_eq_of_lt hj']
        exact absurd hkeq.symm (hout k (show k < w.inWindow by omega))
      · show 1 ≤ w.inWindow
        omega
    · -- the ring is not full: latest advances into a new slot
      have hres : w.latestBucket t = ({ w.withFresh ((w.latest + 1) % w.bucketNums) t with latest := (w.latest + 1) % w.bucketNums, inWindow := w.inWindow + 1 }, (w.latest + 1) % w.bucketNums) := by
        simp only [Window.latestBucket]
        rw [succWrapLe w.latest w.bucketNums h.hlat, if_pos hadv, if_neg hfull]
        rfl
      have hinlt : w.inWindow < w.bucketNums := by
        have := h.hin
        omega
      have hl'idx : (w.latest + 1) % w.bucketNums = w.idx w.inWindow := by
        by_cases hm0 : w.inWindow = 0
        · rw [hm0, idx_zero w h.hold]
          exact ((h.hempty hm0).1).symm
        · rw [h.hlatwin (by omega)]
          unfold Window.idx
          rw [Nat.mod_add_mod]
          congr 1
          omega
      have hlt' : (w.latest + 1) % w.bucketNums < w.buckets.length := by
        rw [h.hlen]
        exact Nat.mod_lt _ hN1
      have hl'ne : ∀ k, k < w.inWindow → w.idx k ≠ (w.latest + 1) % w.bucketNums := by
        intro k hk hc
        rw [hl'idx] at hc
        have := idx_inj w k w.inWindow (by omega) (by omega) hc
        omega
      have key2 : (w.withFresh ((w.latest + 1) % w.bucketNums) t).stampAt ((w.latest + 1) % w.bucketNums) = t :=
        stampAt_withFresh_self w _ t hlt'
      rw [hres]
      refine ⟨{ hlen := ?_, hN := h.hN, hin := ?_, hold := h.hold,
                hlat := Nat.mod_lt _ hN1, hlatwin := fun _ => ?_,
                hempty := fun h0 => absurd h0 (Nat.succ_ne_zero _),
                hmono := ?_, hstamp := ?_, hdead := ?_, hexp := h.hexp, hbt := h.hbt },
             rfl, ?_⟩
      · show (w.withFresh ((w.latest + 1) % w.bucketNums) t).buckets.length = w.bucketNums
        rw [length_withFresh]
        exact h.hlen
      · show w.inWindow + 1 ≤ w.bucketNums
        omega
      · show (w.latest + 1) % w.bucketNums = (w.oldest + (w.inWindow + 1 - 1)) % w.bucketNums
        exact hl'idx
      · intro k k' hk hk'
        have hk'm : k' < w.inWindow + 1 := hk'
        show (w.withFresh ((w.latest + 1) % w.bucketNums) t).stampAt (w.idx k) ≤ (w.withFresh ((w.latest + 1) % w.bucketNums) t).stampAt (w.idx k')
        by_cases hk'top : k' = w.inWindow
        · rw [hk'top, ← hl'idx, key2]
          by_cases hktop : k = w.inWindow
          · rw [hktop, ← hl'idx, key2]
          · rw [stampAt_withFresh_ne w _ t _ (fun hx => hl'ne k (by omega) hx.symm)]
            exact le_trans (h.hstamp k (by omega)) ht
        · rw [stampAt_withFresh_ne w _ t _ (fun hx => hl'ne k' (by omega) hx.symm),
              stampAt_withFresh_ne w _ t _ (fun hx => hl'ne k (by omega) hx.symm)]
          exact h.hmono k k' hk (by omega)
      · intro k hk
        have hkm : k < w.inWindow + 1 := hk
        show (w.withFresh ((w.latest + 1) % w.bucketNums) t).stampAt (w.idx k) ≤ t
        by_cases hktop : k = w.inWindow
        · rw [hktop, ← hl'idx, key2]
        · rw [stampAt_withFresh_ne w _ t _ (fun hx => hl'ne k (by omega) hx.symm)]
          exact le_trans (h.hstamp k (by omega)) ht
      · intro j hj hout
        have hj' : j < w.bucketNums := hj
        have hout' : ∀ k, k < w.inWindow → j ≠ w.idx k := fun k hk =>
          hout k (show k < w.inWindow + 1 by omega)
        have hjl : j ≠ (w.latest + 1) % w.bucketNums := by
          intro hc
          exact hout w.inWindow (Nat.lt_succ_self _) (hc.trans hl'idx)
        rcases h.hdead j hj' hout' with hc | hc
        · left
          show (w.withFresh ((w.latest + 1) % w.bucketNums) t).cnt j = 0
          rw [cnt_withFresh_ne w _ t j (fun hx => hjl hx.symm)]
          exact hc
        · right
          show (w.withFresh ((w.latest + 1) % w.bucketNums) t).stampAt j + w.expireTime ≤ t
          rw [stampAt_withFresh_ne w _ t j (fun hx => hjl hx.symm)]
          exact le_trans hc ht
      · show 1 ≤ w.inWindow + 1
        omega
  · -- the latest bucket is still writable: nothing changes
    have hres : w.latestBucket t = (w, w.latest) := by
      simp only [Window.latestBucket]
      rw [if_neg hadv]
    rw [hres]
    have hwin1 : 1 ≤ w.inWindow := by
      by_contra hc
      have h0 : w.inWindow = 0 := by omega
      have h2 := (h.hempty h0).2
      have hadv2 : ¬ (w.stampAt w.latest + w.bucketTime ≤ t) := hadv
      omega
    exact ⟨h.mono ht, rfl, hwin1⟩

/-- Helper matching the exact shape of the record operations: updating
`conseErr` and then bumping a counter of the just-located latest bucket
preserves the invariant. -/
theorem record_preserved (t : Int) (p1 : Window) (i : Nat)
    (hW1 : WInv p1 t) (hwin : 1 ≤ p1.inWindow) (hi : i = p1.latest)
    (c : Nat) (b : Bucket)
    (hb : b.timeStamp = (p1.getB i).timeStamp) :
    WInv { p1 with conseErr := c, buckets := p1.buckets.set i b } t := by
  subst hi
  exact set_counter_winv { p1 with conseErr := c } t (winv_conseErr p1 t c hW1) hwin b hb

/-- The three record operations preserve the invariant, restamped at the
operation time. -/
theorem record_winv (w : Window) (tL t : Int) (h : WInv w tL) (ht : tL ≤ t) :
    WInv (w.Fail t) t ∧ WInv (w.Succeed t) t ∧ WInv (w.Timeout t) t := by
  obtain ⟨hW1, hidx, hwin⟩ := latestBucket_winv w tL t h ht
  refine ⟨?_, ?_, ?_⟩
  · simp only [Window.Fail]
    refine record_preserved t _ _ hW1 hwin hidx _ _ ?_
    rfl
  · simp only [Window.Succeed]
    refine record_preserved t _ _ hW1 hwin hidx _ _ ?_
    rfl
  · simp only [Window.Timeout]
    refine record_preserved t _ _ hW1 hwin hidx _ _ ?_
    rfl

/-- Any non-Reset window operation preserves the invariant. -/
theorem wstep_winv (w : Window) (op : WOp) (tL : Int) (h : WInv w tL)
    (ht : tL ≤ op.time) (hnr : op.isReset = false) :
    WInv (wstep w op) op.time := by
  cases op with
  | succeed τ => exact (record_winv w tL τ h ht).2.1
  | fail τ => exact (record_winv w tL τ h ht).1
  | timeout τ => exact (record_winv w tL τ h ht).2.2
  | counts τ => exact (expireAux_winv τ w.inWindow w (h.mono ht) le_rfl).1
  | reset τ => simp [WOp.isReset] at hnr

/-- Running a Reset-free, time-monotone operation sequence from an
invariant state leaves the invariant holding at some time of the run, no
later than the final observation time. -/
theorem run_winv (t : Int) : ∀ (ops : List WOp) (w : Window) (tL : Int),
    WInv w tL → (∀ op ∈ ops, op.isReset = false) →
    List.Chain (· ≤ ·) tL (ops.map WOp.time ++ [t]) →
    ∃ tE, WInv (runW w ops) tE ∧ tE ≤ t := by
  intro ops
  induction ops with
  | nil =>
    intro w tL hW _ hch
    refine ⟨tL, hW, ?_⟩
    cases hch with
    | cons hab _ => exact hab
  | cons op ops ih =>
    intro w tL hW hnr hch
    cases hch with
    | cons hab hch2 =>
      exact ih (wstep w op) op.time
        (wstep_winv w op tL hW hab (hnr op (List.mem_cons_self op ops)))
        (fun o ho => hnr o (List.mem_cons_of_mem _ ho)) hch2

/-- The summation loop of `Counts` computes the sum of the combined
bucket counters over the ring slots it walks. -/
theorem countsAux_sum (w : Window) (hN : 1 ≤ w.bucketNums) :
    ∀ (r o : Nat), o < w.bucketNums →
      sampleOf (Window.countsAux w r o)
        = ∑ k in Finset.range r, w.cnt ((o + k) % w.bucketNums) := by
  intro r
  induction r with
  | zero =>
    intro o ho
    simp [Window.countsAux, sampleOf]
  | succ n ih =>
    intro o ho
    have ho1 : (if w.bucketNums ≤ o + 1 then 0 else o + 1) = (o + 1) % w.bucketNums :=
      succWrapLe o w.bucketNums ho
    have hrec := ih ((o + 1) % w.bucketNums) (Nat.mod_lt _ (by omega))
    have hshift : ∑ k in Finset.range n, w.cnt (((o + 1) % w.bucketNums + k) % w.bucketNums)
        = ∑ k in Finset.range n, w.cnt ((o + (k + 1)) % w.bucketNums) := by
      refine Finset.sum_congr rfl fun k _ => ?_
      rw [Nat.mod_add_mod]
      have he : o + 1 + k = o + (k + 1) := by omega
      rw [he]
    rw [Finset.sum_range_succ']
    show sampleOf (Window.countsAux w (n + 1) o) = _
    simp only [Window.countsAux]
    rw [ho1]
    simp only [sampleOf]
    rw [← hshift, ← hrec]
    have ho0 : (o + 0) % w.bucketNums = o := by
      rw [Nat.add_zero, Nat.mod_eq_of_lt ho]
    rw [ho0]
    simp only [sampleOf, Window.cnt]
    omega

/-- A mapped list sum as a sum over positions. -/
theorem map_sum_getD (l : List Bucket) (f : Bucket → Nat) :
    (l.map f).sum = ∑ j in Finset.range l.length, f (l.getD j default) := by
  induction l with
  | nil => simp
  | cons a l ih =>
    rw [List.map_cons, List.sum_cons, ih, List.length_cons, Finset.sum_range_succ']
    simp only [List.getD_cons_succ, List.getD_cons_zero]
    omega

/-- The spec-side live sum written as a sum over ring slots. -/
theorem specLiveSum_eq (w : Window) (t : Int) :
    specLiveSum w t = ∑ j in Finset.range w.buckets.length,
      (if t < w.stampAt j + w.expireTime then w.cnt j else 0) := by
  unfold specLiveSum
  rw [map_sum_getD]
  refine Finset.sum_congr rfl fun j _ => ?_
  unfold Window.stampAt Window.cnt Window.getB
  rfl

/-- After an expiry pass, the `Counts` sum over the in-window buckets
equals the spec-side sum over exactly the unexpired buckets. -/
theorem counts_eq_liveSum (w : Window) (t : Int) (h : WInv w t)
    (hfresh : 1 ≤ w.inWindow → t < w.stampAt w.oldest + w.expireTime) :
    sampleOf (Window.countsAux w w.inWindow w.oldest) = specLiveSum w t := by
  have hN1 : 0 < w.bucketNums := by have := h.hN; omega
  rw [countsAux_sum w h.hN w.inWindow w.oldest h.hold, specLiveSum_eq, h.hlen]
  have hinj : ∀ x ∈ Finset.range w.inWindow, ∀ y ∈ Finset.range w.inWindow,
      (w.oldest + x) % w.bucketNums = (w.oldest + y) % w.bucketNums → x = y := by
    intro x hx y hy hxy
    have hx' := Finset.mem_range.mp hx
    have hy' := Finset.mem_range.mp hy
    have := h.hin
    exact idx_inj w x y (by omega) (by omega) hxy
  have hstep1 : ∑ j in (Finset.range w.inWindow).image
        (fun k => (w.oldest + k) % w.bucketNums), w.cnt j
      = ∑ k in Finset.range w.inWindow, w.cnt ((w.oldest + k) % w.bucketNums) :=
    Finset.sum_image hinj
  rw [← hstep1]
  have himg : (Finset.range w.inWindow).image (fun k => (w.oldest + k) % w.bucketNums)
      ⊆ Finset.range w.bucketNums := by
    intro j hj
    rw [Finset.mem_image] at hj
    obtain ⟨k, _, hk⟩ := hj
    rw [Finset.mem_range, ← hk]
    exact Nat.mod_lt _ hN1
  have hzero : ∀ j ∈ Finset.range w.bucketNums,
      j ∉ (Finset.range w.inWindow).image (fun k => (w.oldest + k) % w.bucketNums) →
      (if t < w.stampAt j + w.expireTime then w.cnt j else 0) = 0 := by
    intro j hj hout
    have hj' := Finset.mem_range.mp hj
    have hout' : ∀ k, k < w.inWindow → j ≠ w.idx k := by
      intro k hk hc
      apply hout
      rw [Finset.mem_image]
      exact ⟨k, Finset.mem_range.mpr hk, hc.symm⟩
    rcases h.hdead j hj' hout' with hc | hc
    · rw [hc]
      split <;> rfl
    · rw [if_neg (by omega)]
  have hcongr : ∀ j ∈ (Finset.range w.inWindow).image
        (fun k => (w.oldest + k) % w.bucketNums),
      (if t < w.stampAt j + w.expireTime then w.cnt j else 0) = w.cnt j := by
    intro j hj
    rw [Finset.mem_image] at hj
    obtain ⟨k, hk, hkj⟩ := hj
    have hk' := Finset.mem_range.mp hk
    have hfr := hfresh (by omega)
    have hmono0 := h.hmono 0 k (Nat.zero_le k) hk'
    rw [idx_zero w h.hold] at hmono0
    unfold Window.idx at hmono0
    rw [← hkj]
    rw [if_pos (by omega)]
  have hstep2 : ∑ j in (Finset.range w.inWindow).image
        (fun k => (w.oldest + k) % w.bucketNums),
      (if t < w.stampAt j + w.expireTime then w.cnt j else 0)
      = ∑ j in (Finset.range w.inWindow).image
        (fun k => (w.oldest + k) % w.bucketNums), w.cnt j :=
    Finset.sum_congr rfl hcongr
  have hstep3 : ∑ j in (Finset.range w.inWindow).image
        (fun k => (w.oldest + k) % w.bucketNums),
      (if t < w.stampAt j + w.expireTime then w.cnt j else 0)
      = ∑ j in Finset.range w.bucketNums,
      (if t < w.stampAt j + w.expireTime then w.cnt j else 0) :=
    Finset.sum_subset himg hzero
  rw [← hstep2, hstep3]

/-- C8, counterexample: construct a window (1 ns buckets, 100 of them,
window length 100 ns) at time 0, record one failure at time 1, Reset at
time 2.  At time 2 the failure bucket (createdAt 1, 1 + 100 > 2) is
unexpired, so the claimed formula sums to 1, yet Samples() is 0: Reset
shrank the logical window to the freshly zeroed bucket 0 only. -/
theorem C8_cex :
    NewWindowWithOptions 1 100 0 = .ok w100 ∧
    (runW w100 [WOp.fail 1, WOp.reset 2]).Samples 2 = 0 ∧
    specLiveSum (runW w100 [WOp.fail 1, WOp.reset 2]) 2 = 1 := ⟨rfl, rfl, rfl⟩

/-- C8, amended: over a Reset-free history — from construction, any
sequence of Succeed/Fail/Timeout/Counts operations at non-decreasing
times — Samples() at any time `t` no earlier than the last operation
equals the sum of the three counters over exactly the buckets with
`createdAt + expireTime > t`; after a Reset the equality can fail, since
unexpired buckets outside the logical window no longer contribute. -/
theorem C8_samples_eq_liveSum (bt bn t0 : Int) (w0 : Window) (ops : List WOp) (t : Int)
    (hbt : 0 < bt)
    (hw : NewWindowWithOptions bt bn t0 = .ok w0)
    (hnr : ∀ op ∈ ops, op.isReset = false)
    (hch : List.Chain (· ≤ ·) t0 (ops.map WOp.time ++ [t])) :
    (runW w0 ops).Samples t = specLiveSum (runW w0 ops) t := by
  obtain ⟨tE, hW, htE⟩ := run_winv t ops w0 t0 (winv_init bt bn t0 w0 hbt hw) hnr hch
  have hWt : WInv (runW w0 ops) t := hW.mono htE
  obtain ⟨hW2, hbk, hbn2, hexp2, hfresh⟩ :=
    expireAux_winv t (runW w0 ops).inWindow (runW w0 ops) hWt le_rfl
  have h1 : (runW w0 ops).Samples t
      = sampleOf (Window.countsAux
          (Window.expireAux t (runW w0 ops).inWindow (runW w0 ops))
          (Window.expireAux t (runW w0 ops).inWindow (runW w0 ops)).inWindow
          (Window.expireAux t (runW w0 ops).inWindow (runW w0 ops)).oldest) := rfl
  rw [h1, counts_eq_liveSum _ t hW2 hfresh]
  unfold specLiveSum
  rw [hbk, hexp2]

/-- C8, witness for `C8_samples_eq_liveSum` on a concrete Reset-free
history. -/
theorem C8_samples_eq_liveSum_w :
    (0 : Int) < 1 ∧
    NewWindowWithOptions 1 100 0 = .ok w100 ∧
    (∀ op ∈ [WOp.fail 1], op.isReset = false) ∧
    List.Chain (· ≤ ·) 0 ([WOp.fail 1].map WOp.time ++ [2]) ∧
    (runW w100 [WOp.fail 1]).Samples 2 = specLiveSum (runW w100 [WOp.fail 1]) 2 :=
  ⟨by norm_num, rfl,
   fun op hop => by
     simp only [List.mem_singleton] at hop
     rw [hop]
     rfl,
   List.Chain.cons (by simp [WOp.time]) (List.Chain.cons (by simp [WOp.time]) List.Chain.nil),
   C8_samples_eq_liveSum 1 100 0 w100 [WOp.fail 1] 2 (by norm_num) rfl
     (fun op hop => by
       simp only [List.mem_singleton] at hop
       rw [hop]
       rfl)
     (List.Chain.cons (by simp [WOp.time]) (List.Chain.cons (by simp [WOp.time]) List.Chain.nil))⟩

end GoBreaker